import Mathlib

/-!
Verification of the joyful.three.js point-cloud core.

The development shallowly embeds the repository code:
* `PB` models the point ring buffer of `src/src/hooks/use-points.ts`
  (`usePoints`: `addPoint`, `update`), which is a superset of the
  `addPoint` logic of `src/joyful3d/Points.ts`;
* `PC` models the ingestion pipeline of `src/src/hooks/use-point-cloud.ts`
  (`processMessage`, `processQueue`);
* `VW` models the `Viewer` class lifecycle and scheduler
  (`run`, `start`, `stop`, `dispose`, resize handling) and the debounced
  resize observer of the `useThreejs` hook;
* `PT` models the `dispose` method of the `joyful3d` `Points` class.

Machine numbers are embedded as `ℚ` (coordinates, colors, timestamps)
or `ℤ` (millisecond clocks); typed arrays are total functions `ℕ → ℚ`.
-/

namespace PB

/-- Write one cell of a typed array, modelled as a total function. -/
def writeQ (f : ℕ → ℚ) (i : ℕ) (v : ℚ) : ℕ → ℚ :=
  fun j => if j = i then v else f j

/-- State of the `usePoints` ring buffer: `maxPoints` is the capacity fixed
at construction, `alpha` the color mode, `position`/`color`/`timestamps`
the backing arrays, `currentIndex` the monotone written counter and
`drawCount` the argument last passed to `setDrawRange`. -/
structure PBState where
  maxPoints : ℕ
  decayTime : ℚ
  alpha : Bool
  position : ℕ → ℚ
  color : ℕ → ℚ
  timestamps : ℕ → ℚ
  currentIndex : ℕ
  drawCount : ℕ

/-- Channel count per point: `alpha ? 4 : 3`. -/
def colorLength (a : Bool) : ℕ := if a then 4 else 3

/-- Fresh buffer right after `init()`: zero-filled arrays, `currentIndex = 0`,
nothing drawn yet. -/
def initPB (C : ℕ) (decay : ℚ) (a : Bool) : PBState :=
  { maxPoints := C
    decayTime := decay
    alpha := a
    position := fun _ => 0
    color := fun _ => 0
    timestamps := fun _ => 0
    currentIndex := 0
    drawCount := 0 }

/-- One call of `addPoint(x,y,z,r,g,b)` at wall-clock time `tnow`
(the source reads `Date.now()`): writes slot `currentIndex % maxPoints`,
stamps it, bumps `currentIndex` and recomputes the draw range. -/
def addPoint (s : PBState) (tnow x y z r g b : ℚ) : PBState :=
  let i := s.currentIndex % s.maxPoints
  let cl := colorLength s.alpha
  let pos := writeQ (writeQ (writeQ s.position (i * 3) x) (i * 3 + 1) y) (i * 3 + 2) z
  let col0 := writeQ (writeQ (writeQ s.color (i * cl) r) (i * cl + 1) g) (i * cl + 2) b
  let col := if s.alpha then writeQ col0 (i * cl + 3) 1 else col0
  { s with
    position := pos
    color := col
    timestamps := writeQ s.timestamps i tnow
    currentIndex := s.currentIndex + 1
    drawCount := min (s.currentIndex + 1) s.maxPoints }

/-- One recorded `addPoint` call: the `Date.now()` stamp and the six
arguments. -/
structure AddCall where
  t : ℚ
  x : ℚ
  y : ℚ
  z : ℚ
  r : ℚ
  g : ℚ
  b : ℚ

/-- Replay a sequence of `addPoint` calls. -/
def addMany (s : PBState) (cs : List AddCall) : PBState :=
  cs.foldl (fun s c => addPoint s c.t c.x c.y c.z c.r c.g c.b) s

/-- The `alphaDecay` closure of `update`:
`dt => 1.0 - Math.min(dt / decayTime, 1.0)`. -/
def alphaDecay (decayTime dt : ℚ) : ℚ := 1 - min (dt / decayTime) 1

/-- One iteration of the `update` loop at slot `i`: in alpha mode write the
decayed alpha into channel `i*4+3`; in binary mode blacken channels
`i*3 .. i*3+2` when the age strictly exceeds `decayTime`, else do nothing. -/
def updateSlot (s : PBState) (now : ℚ) (i : ℕ) : PBState :=
  let age := now - s.timestamps i
  if s.alpha then
    { s with color := writeQ s.color (i * colorLength s.alpha + 3) (alphaDecay s.decayTime age) }
  else
    if age > s.decayTime then
      { s with color := writeQ (writeQ (writeQ s.color (i * 3) 0) (i * 3 + 1) 0) (i * 3 + 2) 0 }
    else s

/-- The `update` loop over slots `0 .. k-1` (source: `for i in [0, length)`). -/
def updateLoop (s : PBState) (now : ℚ) : ℕ → PBState
  | 0 => s
  | k + 1 => updateSlot (updateLoop s now k) now k

/-- The whole update pass at wall-clock `now`: iterate over the
`min(currentIndex, maxPoints)` active slots. -/
def update (s : PBState) (now : ℚ) : PBState :=
  updateLoop s now (min s.currentIndex s.maxPoints)

/-- Concrete binary-mode buffer: one red point stamped at `t = 0`,
decay time 1000 ms. -/
def cexBinary : PBState :=
  { maxPoints := 1
    decayTime := 1000
    alpha := false
    position := fun _ => 0
    color := fun j => if j = 0 then 1 else 0
    timestamps := fun _ => 0
    currentIndex := 1
    drawCount := 1 }

/-- Concrete alpha-mode buffer: one point stamped at `t = 1000`,
decay time 1000 ms. -/
def cexAlpha : PBState :=
  { maxPoints := 1
    decayTime := 1000
    alpha := true
    position := fun _ => 0
    color := fun _ => 0
    timestamps := fun _ => 1000
    currentIndex := 1
    drawCount := 1 }

end PB

/-- The clamp written in the spec sentence for C3, for comparison with the
code formula: `clamp(x, lo, hi) = max lo (min x hi)`. -/
def clampQ (lo hi x : ℚ) : ℚ := max lo (min x hi)

namespace PC

/-- Hard ceiling on the number of produced messages: `const max = 20000`. -/
def pcMax : ℕ := 20000

/-- Points per produced message: the `for (let i = 0; i < 2000; i++)` loop. -/
def batchSize : ℕ := 2000

/-- The session point budget realized by the source: `pcMax` messages of
`batchSize` points each. -/
def maxTotal : ℕ := batchSize * pcMax

/-- State of `usePointCloud2`: the active instance list (instance id and
its creation stamp), the pending batch queue (batch point-counts),
`lastRenderTime`, a fresh-id counter for instances, whether the
`requestAnimationFrame` loop is scheduled, the producer message counter
`index`, and whether the producer `setTimeout` chain is still going. -/
structure PCState where
  decayTime : ℤ
  throttleRate : ℤ
  active : List (ℕ × ℤ)
  queue : List ℕ
  lastRenderTime : ℤ
  nextId : ℕ
  scheduled : Bool
  index : ℕ
  timerOn : Bool

/-- Eviction step of `processQueue`: look only at `pointInstanceArray[0]`;
if its age strictly exceeds `decayTime`, shift it and dispose it. Returns
the id of the disposed instance, if any. -/
def evict (now : ℤ) (s : PCState) : PCState × Option ℕ :=
  match s.active with
  | [] => (s, none)
  | (id, t0) :: rest =>
      if now - t0 > s.decayTime then ({ s with active := rest }, some id)
      else (s, none)

/-- Consume step of `processQueue`: if the queue is non-empty and the
throttle window has passed, shift the oldest batch, create a fresh
instance stamped `now`, append it to the active list and record
`lastRenderTime = now`. -/
def consume (now : ℤ) (s : PCState) : PCState :=
  match s.queue with
  | [] => s
  | _ :: rest =>
      if now - s.lastRenderTime < s.throttleRate then s
      else
        { s with
          queue := rest
          active := s.active ++ [(s.nextId, now)]
          nextId := s.nextId + 1
          lastRenderTime := now }

/-- One `processQueue` tick at time `now`: reschedule itself, cancel the
scheduling again when both the active list and the queue are empty,
otherwise run the eviction step then the consume step. -/
def tick (now : ℤ) (s : PCState) : PCState × Option ℕ :=
  let s1 := { s with scheduled := true }
  if s1.active.isEmpty ∧ s1.queue.isEmpty then
    ({ s1 with scheduled := false }, none)
  else
    let p := evict now s1
    (consume now p.1, p.2)

/-- A run of `processQueue` ticks at the given times, collecting every
disposed instance id. -/
def ticks : List ℤ → PCState → PCState × List ℕ
  | [], s => (s, [])
  | t :: ts, s =>
      let p := tick t s
      let q := ticks ts p.1
      (q.1, p.2.toList ++ q.2)

/-- One `processMessage` call: if `index >= max` return without producing
(the `setTimeout` chain ends); otherwise push one 2000-point batch,
increment `index` and reschedule itself. -/
def processMessage (s : PCState) : PCState :=
  if pcMax ≤ s.index then { s with timerOn := false }
  else
    { s with
      queue := s.queue ++ [batchSize]
      index := s.index + 1
      timerOn := true }

/-- Cumulative number of points ever enqueued: every batch holds exactly
`batchSize` points. -/
def totalEnqueued (s : PCState) : ℕ := batchSize * s.index

/-- Well-formedness: active instance ids are distinct and below the
fresh-id counter. Holds for every state the hook can reach. -/
def wfPC (s : PCState) : Prop :=
  (s.active.map Prod.fst).Nodup ∧
  ∀ id ∈ s.active.map Prod.fst, id < s.nextId

/-- Concrete idle pipeline state: nothing active, nothing queued, the
frame loop still scheduled, producer at message 0. -/
def idlePC : PCState :=
  { decayTime := 5000
    throttleRate := 100
    active := []
    queue := []
    lastRenderTime := 0
    nextId := 0
    scheduled := true
    index := 0
    timerOn := true }

/-- Concrete busy pipeline state: one active instance (id 0, created at
time 0), empty queue. -/
def busyPC : PCState :=
  { decayTime := 5000
    throttleRate := 100
    active := [(0, 0)]
    queue := []
    lastRenderTime := 0
    nextId := 1
    scheduled := true
    index := 3
    timerOn := true }

end PC

namespace VW

/-- State of a `Viewer` instance plus the host frame queue: `destroy` and
`requestId` are the fields of the class, `pending` is the callback token
currently queued at the host (none after `cancelAnimationFrame`),
`fresh` generates tokens, the three counters record observable work done
by the loop body, the six Booleans model whether the owned references
are non-null, and `width`/`height`/`projUpdates` record resize
applications. -/
structure VState where
  destroy : Bool
  requestId : Option ℕ
  pending : Option ℕ
  fresh : ℕ
  controlsUpdates : ℕ
  renders : ℕ
  statsUpdates : ℕ
  scene : Bool
  camera : Bool
  renderer : Bool
  controls : Bool
  stats : Bool
  observer : Bool
  sceneObjs : ℕ
  cameraPos : ℚ × ℚ × ℚ
  width : ℤ
  height : ℤ
  projUpdates : ℕ

/-- One execution of the `run()` callback body: bail out when `destroy`
is set; otherwise update controls, render when the references are
present, update stats, and reschedule via `requestAnimationFrame`. -/
def run (s : VState) : VState :=
  if s.destroy then s
  else
    let s1 := if s.controls then { s with controlsUpdates := s.controlsUpdates + 1 } else s
    let s2 :=
      if s1.renderer && s1.scene && s1.camera then { s1 with renders := s1.renders + 1 } else s1
    let s3 := if s2.stats then { s2 with statsUpdates := s2.statsUpdates + 1 } else s2
    { s3 with requestId := some s3.fresh, pending := some s3.fresh, fresh := s3.fresh + 1 }

/-- The public method that begins the loop:
no-op unless `requestId` is null, else clear `destroy` and run. -/
def start (s : VState) : VState :=
  if s.requestId = none then run { s with destroy := false } else s

/-- The public method that halts the loop: cancel the queued frame
callback named by `requestId` and null the token. -/
def stop (s : VState) : VState :=
  match s.requestId with
  | none => s
  | some t =>
      { s with
        requestId := none
        pending := if s.pending = some t then none else s.pending }

/-- Dispose of the viewer: set `destroy`, call the halting method,
disconnect and null the observer, remove and null stats, release scene
resources, drop the canvas, and null every owned reference. -/
def dispose (s : VState) : VState :=
  let s1 := stop { s with destroy := true }
  { s1 with
    observer := false
    stats := false
    scene := false
    camera := false
    controls := false
    renderer := false }

/-- The host delivers the queued animation frame: if the callback was
cancelled nothing happens, otherwise the `run()` body executes. -/
def frame (s : VState) : VState :=
  match s.pending with
  | none => s
  | some _ => run { s with pending := none }

/-- Public `add(obj)`: `this.scene?.add(obj)`. -/
def add (s : VState) : VState :=
  if s.scene then { s with sceneObjs := s.sceneObjs + 1 } else s

/-- Public `setCameraPosition(x,y,z)`: guarded on the camera reference. -/
def setCameraPosition (s : VState) (x y z : ℚ) : VState :=
  if s.camera then { s with cameraPos := (x, y, z) } else s

/-- Whether `getScene()` returns a non-null scene. -/
def getScene (s : VState) : Bool := s.scene

/-- Whether `getCamera()` returns a non-null camera. -/
def getCamera (s : VState) : Bool := s.camera

/-- Whether `getRenderer()` returns a non-null renderer. -/
def getRenderer (s : VState) : Bool := s.renderer

/-- The `resize()` method of the `Viewer` class: guarded on camera and
renderer, it applies the new dimensions and reprojects immediately. -/
def resize (s : VState) (w h : ℤ) : VState :=
  if s.camera && s.renderer then
    { s with width := w, height := h, projUpdates := s.projUpdates + 1 }
  else s

/-- The `Viewer` class resize observer: every observed event calls
`resize()` directly, with no debounce. Events carry the observed
dimensions `(time, width, height)`. -/
def observeRun (s : VState) (evs : List (ℤ × ℤ × ℤ)) : VState :=
  evs.foldl (fun s e => resize s e.2.1 e.2.2) s

/-- A resize event at time `t` after which the host element measures
`w × h`. -/
structure REv where
  t : ℤ
  w : ℤ
  h : ℤ

/-- The debounced resize observer of the `useThreejs` hook: each event
clears any pending 200 ms timeout and arms a new one; a timeout that is
never cleared fires 200 ms after its event and applies the dimensions
read at fire time. Returns the list of applied updates
(fire time and applied dimensions), in order. -/
def debounceFires : List REv → List REv
  | [] => []
  | [e] => [⟨e.t + 200, e.w, e.h⟩]
  | e1 :: e2 :: rest =>
      if e2.t - e1.t < 200 then debounceFires (e2 :: rest)
      else ⟨e1.t + 200, e1.w, e1.h⟩ :: debounceFires (e2 :: rest)

/-- Concrete live viewer: all references present, loop scheduled with
token 0. -/
def liveV : VState :=
  { destroy := false
    requestId := some 0
    pending := some 0
    fresh := 1
    controlsUpdates := 0
    renders := 0
    statsUpdates := 0
    scene := true
    camera := true
    renderer := true
    controls := true
    stats := true
    observer := true
    sceneObjs := 0
    cameraPos := (10, 10, 10)
    width := 800
    height := 600
    projUpdates := 0 }

end VW

namespace PT

/-- Owned references and collaborator calls of a `joyful3d` `Points`
instance: `hasScene` is whether `this.scene` is set (it is never nulled),
`inScene` whether the drawable is still attached, and the two counters
count calls into `geometry.dispose()` and `material.dispose()`. -/
structure PtState where
  hasScene : Bool
  inScene : Bool
  geomDisposeCalls : ℕ
  matDisposeCalls : ℕ

/-- The `dispose()` method of the `Points` class: remove from the scene
when the scene reference is set, then always dispose geometry and
material. No owned reference is nulled. -/
def dispose (p : PtState) : PtState :=
  { p with
    inScene := if p.hasScene then false else p.inScene
    geomDisposeCalls := p.geomDisposeCalls + 1
    matDisposeCalls := p.matDisposeCalls + 1 }

end PT

namespace APP

/-- The whole `usePointCloud2` page: the viewer and the pipeline state. -/
structure AppState where
  viewer : VW.VState
  pc : PC.PCState

/-- The unmount hook: `onUnmounted(() => viewer.dispose())`. Nothing else
is torn down. -/
def unmount (a : AppState) : AppState :=
  { a with viewer := VW.dispose a.viewer }

/-- The producer timer delivers a `processMessage` callback. -/
def producerFire (a : AppState) : AppState :=
  { a with pc := PC.processMessage a.pc }

/-- Concrete running page: live viewer, idle-but-scheduled pipeline. -/
def liveApp : AppState :=
  { viewer := VW.liveV, pc := PC.idlePC }

end APP

namespace PB

theorem addPoint_currentIndex (s : PBState) (t x y z r g b : ℚ) :
    (addPoint s t x y z r g b).currentIndex = s.currentIndex + 1 := rfl

theorem addMany_currentIndex (cs : List AddCall) (s : PBState) :
    (addMany s cs).currentIndex = s.currentIndex + cs.length := by
  induction cs generalizing s with
  | nil => simp [addMany]
  | cons c cs ih =>
      simp only [addMany, List.foldl_cons, List.length_cons]
      have := ih (addPoint s c.t c.x c.y c.z c.r c.g c.b)
      simp only [addMany] at this
      rw [this, addPoint_currentIndex]
      omega

theorem addMany_append (s : PBState) (cs : List AddCall) (c : AddCall) :
    addMany s (cs ++ [c]) =
      addPoint (addMany s cs) c.t c.x c.y c.z c.r c.g c.b := by
  simp [addMany]

theorem addPoint_maxPoints (s : PBState) (t x y z r g b : ℚ) :
    (addPoint s t x y z r g b).maxPoints = s.maxPoints := rfl

theorem addPoint_alpha (s : PBState) (t x y z r g b : ℚ) :
    (addPoint s t x y z r g b).alpha = s.alpha := rfl

theorem addMany_maxPoints (cs : List AddCall) (s : PBState) :
    (addMany s cs).maxPoints = s.maxPoints := by
  induction cs generalizing s with
  | nil => rfl
  | cons c cs ih =>
      simp only [addMany, List.foldl_cons]
      exact ih (addPoint s c.t c.x c.y c.z c.r c.g c.b)

theorem addMany_alpha (cs : List AddCall) (s : PBState) :
    (addMany s cs).alpha = s.alpha := by
  induction cs generalizing s with
  | nil => rfl
  | cons c cs ih =>
      simp only [addMany, List.foldl_cons]
      exact ih (addPoint s c.t c.x c.y c.z c.r c.g c.b)

theorem addPoint_readback (s : PBState) (t x y z r g b : ℚ) :
    (addPoint s t x y z r g b).position (s.currentIndex % s.maxPoints * 3) = x ∧
    (addPoint s t x y z r g b).position (s.currentIndex % s.maxPoints * 3 + 1) = y ∧
    (addPoint s t x y z r g b).position (s.currentIndex % s.maxPoints * 3 + 2) = z ∧
    (addPoint s t x y z r g b).color
      (s.currentIndex % s.maxPoints * colorLength s.alpha) = r ∧
    (addPoint s t x y z r g b).color
      (s.currentIndex % s.maxPoints * colorLength s.alpha + 1) = g ∧
    (addPoint s t x y z r g b).color
      (s.currentIndex % s.maxPoints * colorLength s.alpha + 2) = b ∧
    (addPoint s t x y z r g b).timestamps (s.currentIndex % s.maxPoints) = t := by
  cases ha : s.alpha <;>
    simp only [addPoint, ha, colorLength, if_true, if_false, writeQ,
      Bool.false_eq_true] <;>
    refine ⟨?_, ?_, ?_, ?_, ?_, ?_, ?_⟩ <;>
    first
      | trivial
      | (split_ifs <;> first | rfl | omega)

theorem addMany_drawCount (C : ℕ) (d : ℚ) (a : Bool) (cs : List AddCall) :
    (addMany (initPB C d a) cs).drawCount = min cs.length C := by
  rcases List.eq_nil_or_concat cs with h | ⟨l, c, h⟩
  · subst h; simp [addMany, initPB]
  · subst h
    rw [List.concat_eq_append, addMany_append]
    have hidx : (addMany (initPB C d a) l).currentIndex = l.length := by
      have := addMany_currentIndex l (initPB C d a)
      simpa [initPB] using this
    simp only [addPoint, hidx]
    simp [addMany_maxPoints, initPB]

end PB

/-- C1. Ring-buffer write semantics of `addPoint`: after `N` sequential
calls on a buffer of capacity `C > 0`, the draw count is `N` when `N ≤ C`
and `C` when `N > C`; in the latter case the data stored at slot
`(N-1) % C` (position, color and timestamp) is exactly the argument of
the most recent call — the write index wraps modulo `C` and overwrites
the oldest slot. -/
theorem C1_ring_buffer_wraparound (C : ℕ) (hC : 0 < C) (d : ℚ) (a : Bool)
    (cs : List PB.AddCall) :
    (cs.length ≤ C → (PB.addMany (PB.initPB C d a) cs).drawCount = cs.length) ∧
    (C < cs.length →
      (PB.addMany (PB.initPB C d a) cs).drawCount = C ∧
      ∀ c : PB.AddCall, cs.getLast? = some c →
        ((PB.addMany (PB.initPB C d a) cs).position ((cs.length - 1) % C * 3) = c.x ∧
         (PB.addMany (PB.initPB C d a) cs).position ((cs.length - 1) % C * 3 + 1) = c.y ∧
         (PB.addMany (PB.initPB C d a) cs).position ((cs.length - 1) % C * 3 + 2) = c.z) ∧
        ((PB.addMany (PB.initPB C d a) cs).color
            ((cs.length - 1) % C * PB.colorLength a) = c.r ∧
         (PB.addMany (PB.initPB C d a) cs).color
            ((cs.length - 1) % C * PB.colorLength a + 1) = c.g ∧
         (PB.addMany (PB.initPB C d a) cs).color
            ((cs.length - 1) % C * PB.colorLength a + 2) = c.b) ∧
        (PB.addMany (PB.initPB C d a) cs).timestamps ((cs.length - 1) % C) = c.t) := by
  constructor
  · intro hle
    rw [PB.addMany_drawCount]
    omega
  · intro hgt
    refine ⟨by rw [PB.addMany_drawCount]; omega, ?_⟩
    intro c hlast
    rcases List.eq_nil_or_concat cs with h | ⟨l, c', h⟩
    · subst h; simp at hlast
    · subst h
      rw [List.concat_eq_append] at hgt hlast ⊢
      rw [List.getLast?_concat] at hlast
      injection hlast with hc
      cases hc
      rw [PB.addMany_append]
      have hidx : (PB.addMany (PB.initPB C d a) l).currentIndex = l.length := by
        have := PB.addMany_currentIndex l (PB.initPB C d a)
        simpa [PB.initPB] using this
      have hmax : (PB.addMany (PB.initPB C d a) l).maxPoints = C := by
        simp [PB.addMany_maxPoints, PB.initPB]
      have halpha : (PB.addMany (PB.initPB C d a) l).alpha = a := by
        simp [PB.addMany_alpha, PB.initPB]
      have hlen : (l ++ [c]).length - 1 = l.length := by simp
      have h7 := PB.addPoint_readback (PB.addMany (PB.initPB C d a) l)
        c.t c.x c.y c.z c.r c.g c.b
      rw [hidx, hmax, halpha] at h7
      rw [hlen]
      exact ⟨⟨h7.1, h7.2.1, h7.2.2.1⟩,
             ⟨h7.2.2.2.1, h7.2.2.2.2.1, h7.2.2.2.2.2.1⟩,
             h7.2.2.2.2.2.2⟩

/-- Witness for C1 at a concrete input: capacity 2, three insertions. -/
theorem C1_ring_buffer_wraparound_witness :
    0 < 2 ∧
    (PB.addMany (PB.initPB 2 1000 false)
      [⟨0,1,2,3,4,5,6⟩, ⟨10,7,8,9,1,2,3⟩, ⟨20,11,12,13,14,15,16⟩]).drawCount = 2 := by
  refine ⟨by decide, ?_⟩
  have h := (C1_ring_buffer_wraparound 2 (by decide) 1000 false
    [⟨0,1,2,3,4,5,6⟩, ⟨10,7,8,9,1,2,3⟩, ⟨20,11,12,13,14,15,16⟩]).2 (by simp)
  exact h.1

namespace PB

theorem updateSlot_frame (s : PBState) (now : ℚ) (i : ℕ) :
    (updateSlot s now i).position = s.position ∧
    (updateSlot s now i).timestamps = s.timestamps ∧
    (updateSlot s now i).currentIndex = s.currentIndex ∧
    (updateSlot s now i).drawCount = s.drawCount ∧
    (updateSlot s now i).maxPoints = s.maxPoints ∧
    (updateSlot s now i).alpha = s.alpha ∧
    (updateSlot s now i).decayTime = s.decayTime := by
  simp only [updateSlot]
  split_ifs <;> simp

theorem updateLoop_frame (s : PBState) (now : ℚ) (k : ℕ) :
    (updateLoop s now k).position = s.position ∧
    (updateLoop s now k).timestamps = s.timestamps ∧
    (updateLoop s now k).currentIndex = s.currentIndex ∧
    (updateLoop s now k).drawCount = s.drawCount ∧
    (updateLoop s now k).maxPoints = s.maxPoints ∧
    (updateLoop s now k).alpha = s.alpha ∧
    (updateLoop s now k).decayTime = s.decayTime := by
  induction k with
  | zero => exact ⟨rfl, rfl, rfl, rfl, rfl, rfl, rfl⟩
  | succ k ih =>
      have h := updateSlot_frame (updateLoop s now k) now k
      unfold updateLoop
      refine ⟨?_, ?_, ?_, ?_, ?_, ?_, ?_⟩
      · rw [h.1, ih.1]
      · rw [h.2.1, ih.2.1]
      · rw [h.2.2.1, ih.2.2.1]
      · rw [h.2.2.2.1, ih.2.2.2.1]
      · rw [h.2.2.2.2.1, ih.2.2.2.2.1]
      · rw [h.2.2.2.2.2.1, ih.2.2.2.2.2.1]
      · rw [h.2.2.2.2.2.2, ih.2.2.2.2.2.2]

/-- Binary-mode color cells after the loop over slots `0..L-1`. -/
theorem updateLoop_color_binary (s : PBState) (hs : s.alpha = false)
    (now : ℚ) (L i c : ℕ) (hc : c < 3) :
    (updateLoop s now L).color (i * 3 + c) =
      if i < L ∧ now - s.timestamps i > s.decayTime then 0
      else s.color (i * 3 + c) := by
  induction L with
  | zero => simp [updateLoop]
  | succ L ih =>
      have hf := updateLoop_frame s now L
      have hts : (updateLoop s now L).timestamps = s.timestamps := hf.2.1
      have hal : (updateLoop s now L).alpha = false := by
        rw [hf.2.2.2.2.2.1, hs]
      have hdt : (updateLoop s now L).decayTime = s.decayTime :=
        hf.2.2.2.2.2.2
      simp only [updateLoop, updateSlot, hal, Bool.false_eq_true, if_false,
        hts, hdt]
      by_cases hcond : s.decayTime < now - s.timestamps L
      · rw [if_pos hcond]
        simp only [writeQ]
        by_cases hiL : i = L
        · subst hiL
          rw [if_pos (⟨Nat.lt_succ_self i, hcond⟩ :
            i < i + 1 ∧ s.decayTime < now - s.timestamps i)]
          interval_cases c
          · rw [if_neg (by omega), if_neg (by omega), if_pos (by omega)]
          · rw [if_neg (by omega), if_pos (by omega)]
          · rw [if_pos (by omega)]
        · rw [if_neg (by omega), if_neg (by omega), if_neg (by omega), ih]
          have hiff : i < L ↔ i < L + 1 := by omega
          simp only [hiff]
      · rw [if_neg hcond, ih]
        by_cases hiL : i = L
        · subst hiL
          rw [if_neg (fun h => Nat.lt_irrefl i h.1),
            if_neg (fun h => hcond h.2)]
        · have hiff : i < L ↔ i < L + 1 := by omega
          simp only [hiff]

end PB

namespace PB

/-- Alpha-mode alpha channel after the loop over slots `0..L-1`. -/
theorem updateLoop_color_alpha (s : PBState) (hs : s.alpha = true)
    (now : ℚ) (L i : ℕ) :
    (updateLoop s now L).color (i * 4 + 3) =
      if i < L then alphaDecay s.decayTime (now - s.timestamps i)
      else s.color (i * 4 + 3) := by
  induction L with
  | zero => simp [updateLoop]
  | succ L ih =>
      have hf := updateLoop_frame s now L
      have hts : (updateLoop s now L).timestamps = s.timestamps := hf.2.1
      have hal : (updateLoop s now L).alpha = true := by
        rw [hf.2.2.2.2.2.1, hs]
      have hdt : (updateLoop s now L).decayTime = s.decayTime :=
        hf.2.2.2.2.2.2
      simp only [updateLoop, updateSlot, hal, colorLength, if_true, hts,
        hdt, writeQ]
      by_cases hiL : i = L
      · subst hiL
        rw [if_pos rfl, if_pos (Nat.lt_succ_self i)]
      · rw [if_neg (by omega), ih]
        have hiff : i < L ↔ i < L + 1 := by omega
        simp only [hiff]

/-- Alpha-mode rgb channels are never written by the loop. -/
theorem updateLoop_color_alpha_rgb (s : PBState) (hs : s.alpha = true)
    (now : ℚ) (L i c : ℕ) (hc : c < 3) :
    (updateLoop s now L).color (i * 4 + c) = s.color (i * 4 + c) := by
  induction L with
  | zero => rfl
  | succ L ih =>
      have hf := updateLoop_frame s now L
      have hal : (updateLoop s now L).alpha = true := by
        rw [hf.2.2.2.2.2.1, hs]
      simp only [updateLoop, updateSlot, hal, colorLength, if_true, writeQ]
      rw [if_neg (by omega), ih]

end PB

/-- C10. Implicit frame property of `update`: a full update pass writes
only color-attribute data; the position array, the per-slot timestamps,
the written counter `currentIndex`, the draw range and the configuration
are all left unchanged. In particular `update` never removes points and
never decreases the draw count. -/
theorem C10_update_only_touches_colors (s : PB.PBState) (now : ℚ) :
    (PB.update s now).position = s.position ∧
    (PB.update s now).timestamps = s.timestamps ∧
    (PB.update s now).currentIndex = s.currentIndex ∧
    (PB.update s now).drawCount = s.drawCount ∧
    (PB.update s now).maxPoints = s.maxPoints ∧
    (PB.update s now).alpha = s.alpha ∧
    (PB.update s now).decayTime = s.decayTime :=
  PB.updateLoop_frame s now (min s.currentIndex s.maxPoints)

/-- C2 counterexample. At `now - t0 = decayTime` exactly, binary-mode
`update` leaves the color untouched (the source tests `age > decayTime`
strictly), so the claimed blackout at `now - t0 >= decayTime` is false:
the red channel is still 1, not 0. -/
theorem C2_blackout_at_threshold_cex :
    1000 - PB.cexBinary.timestamps 0 ≥ PB.cexBinary.decayTime ∧
    (PB.update PB.cexBinary 1000).color 0 = 1 ∧ (1 : ℚ) ≠ 0 := by
  refine ⟨by norm_num [PB.cexBinary], ?_, by norm_num⟩
  norm_num [PB.update, PB.updateLoop, PB.updateSlot, PB.cexBinary, PB.writeQ]

/-- C2 (amended). Binary fade mode: for every active slot, `update(now)`
leaves the slot color channels unchanged while `now - t0 <= decayTime`,
and sets them to exactly (0,0,0) once `now - t0 > decayTime` — the
blackout threshold is strict, matching §4.1 and not the `>=` reading. -/
theorem C2_binary_blackout_strict (s : PB.PBState) (hs : s.alpha = false)
    (now : ℚ) (i : ℕ) (hi : i < min s.currentIndex s.maxPoints)
    (c : ℕ) (hc : c < 3) :
    (now - s.timestamps i ≤ s.decayTime →
      (PB.update s now).color (i * 3 + c) = s.color (i * 3 + c)) ∧
    (s.decayTime < now - s.timestamps i →
      (PB.update s now).color (i * 3 + c) = 0) := by
  constructor
  · intro hle
    rw [PB.update, PB.updateLoop_color_binary s hs now _ i c hc,
      if_neg (fun h => absurd h.2 (not_lt.mpr hle))]
  · intro hgt
    rw [PB.update, PB.updateLoop_color_binary s hs now _ i c hc,
      if_pos ⟨hi, hgt⟩]

/-- Witness for C2 at a concrete input: the same buffer goes black one
millisecond past the decay time. -/
theorem C2_binary_blackout_strict_witness :
    PB.cexBinary.alpha = false ∧
    0 < min PB.cexBinary.currentIndex PB.cexBinary.maxPoints ∧ (0 : ℕ) < 3 ∧
    PB.cexBinary.decayTime < 1001 - PB.cexBinary.timestamps 0 ∧
    (PB.update PB.cexBinary 1001).color (0 * 3 + 0) = 0 := by
  refine ⟨rfl, by norm_num [PB.cexBinary], by norm_num,
    by norm_num [PB.cexBinary], ?_⟩
  exact (C2_binary_blackout_strict PB.cexBinary rfl 1001 0
    (by norm_num [PB.cexBinary]) 0 (by norm_num)).2
    (by norm_num [PB.cexBinary])

/-- C3 counterexample. For a slot stamped in the future (`now < t0`, here
`now = 0`, `t0 = 1000`, `decayTime = 1000`), the code writes
`1 - min(age/decayTime, 1) = 2`, strictly above 1, while the claimed
clamp formula gives 1 — so alpha is not `clamp(1-(now-t0)/decayTime,0,1)`
and does exceed 1 when `now < t0`. -/
theorem C3_alpha_clamp_cex :
    (PB.update PB.cexAlpha 0).color (0 * 4 + 3) = 2 ∧
    clampQ 0 1 (1 - ((0 : ℚ) - PB.cexAlpha.timestamps 0) / PB.cexAlpha.decayTime) = 1 ∧
    (2 : ℚ) ≠ 1 := by
  refine ⟨?_, ?_, by norm_num⟩
  · norm_num [PB.update, PB.updateLoop, PB.updateSlot, PB.cexAlpha,
      PB.writeQ, PB.colorLength, PB.alphaDecay]
  · norm_num [clampQ, PB.cexAlpha]

/-- C3 (amended). Alpha fade mode with `decayTime > 0`: for every active
slot stamped `t0`, `update(now)` writes
`alpha = 1 - min((now-t0)/decayTime, 1)` into the alpha channel. The
written value agrees with `clamp(1-(now-t0)/decayTime, 0, 1)` whenever
`now >= t0`, is monotonically non-increasing in `now`, and is exactly 0
once `now - t0 >= decayTime`; but when `now < t0` it exceeds 1 (it equals
`1 + (t0-now)/decayTime`), so the claimed clamp form does not hold there. -/
theorem C3_alpha_decay_formula (s : PB.PBState) (hs : s.alpha = true)
    (hd : 0 < s.decayTime) (now : ℚ) (i : ℕ)
    (hi : i < min s.currentIndex s.maxPoints) :
    (PB.update s now).color (i * 4 + 3)
        = PB.alphaDecay s.decayTime (now - s.timestamps i) ∧
    (s.timestamps i ≤ now →
      (PB.update s now).color (i * 4 + 3)
        = clampQ 0 1 (1 - (now - s.timestamps i) / s.decayTime)) ∧
    (∀ n₁ n₂ : ℚ, n₁ ≤ n₂ →
      (PB.update s n₂).color (i * 4 + 3) ≤ (PB.update s n₁).color (i * 4 + 3)) ∧
    (s.decayTime ≤ now - s.timestamps i →
      (PB.update s now).color (i * 4 + 3) = 0) ∧
    (now < s.timestamps i →
      1 < (PB.update s now).color (i * 4 + 3)) := by
  have main : ∀ n : ℚ, (PB.update s n).color (i * 4 + 3)
      = PB.alphaDecay s.decayTime (n - s.timestamps i) := by
    intro n
    rw [PB.update, PB.updateLoop_color_alpha s hs n _ i, if_pos hi]
  refine ⟨main now, ?_, ?_, ?_, ?_⟩
  · intro hle
    rw [main now, PB.alphaDecay, clampQ]
    have hage : 0 ≤ now - s.timestamps i := by linarith
    have hdiv : 0 ≤ (now - s.timestamps i) / s.decayTime :=
      div_nonneg hage (le_of_lt hd)
    rcases le_total ((now - s.timestamps i) / s.decayTime) 1 with h | h
    · rw [min_eq_left h, min_eq_left (by linarith), max_eq_right (by linarith)]
    · rw [min_eq_right h, min_eq_left (by linarith), max_eq_left (by linarith)]
      norm_num
  · intro n₁ n₂ hn
    rw [main n₁, main n₂, PB.alphaDecay, PB.alphaDecay]
    have hdiv : (n₁ - s.timestamps i) / s.decayTime
        ≤ (n₂ - s.timestamps i) / s.decayTime :=
      (div_le_div_iff_of_pos_right hd).mpr (by linarith)
    have := min_le_min hdiv (le_refl (1 : ℚ))
    linarith
  · intro hge
    rw [main now, PB.alphaDecay]
    have h1 : 1 ≤ (now - s.timestamps i) / s.decayTime :=
      (one_le_div hd).mpr hge
    rw [min_eq_right h1]
    ring
  · intro hlt
    rw [main now, PB.alphaDecay]
    have hneg : (now - s.timestamps i) / s.decayTime < 0 :=
      div_neg_of_neg_of_pos (by linarith) hd
    rw [min_eq_left (by linarith)]
    linarith

/-- Witness for C3 at a concrete input: the slot of `cexAlpha` read half
a decay window after its stamp carries alpha one half. -/
theorem C3_alpha_decay_formula_witness :
    PB.cexAlpha.alpha = true ∧ 0 < PB.cexAlpha.decayTime ∧
    0 < min PB.cexAlpha.currentIndex PB.cexAlpha.maxPoints ∧
    PB.cexAlpha.timestamps 0 ≤ 1500 ∧
    (PB.update PB.cexAlpha 1500).color (0 * 4 + 3)
      = clampQ 0 1 (1 - (1500 - PB.cexAlpha.timestamps 0) / PB.cexAlpha.decayTime) ∧
    clampQ 0 1 (1 - (1500 - PB.cexAlpha.timestamps 0) / PB.cexAlpha.decayTime)
      = 1 / 2 := by
  refine ⟨rfl, by norm_num [PB.cexAlpha], by norm_num [PB.cexAlpha],
    by norm_num [PB.cexAlpha], ?_, by norm_num [clampQ, PB.cexAlpha]⟩
  exact (C3_alpha_decay_formula PB.cexAlpha rfl (by norm_num [PB.cexAlpha])
    1500 0 (by norm_num [PB.cexAlpha])).2.1 (by norm_num [PB.cexAlpha])

namespace PC

theorem consume_active_nextId (now : ℤ) (s : PCState) :
    ((consume now s).active = s.active ∧ (consume now s).nextId = s.nextId) ∨
    ((consume now s).active = s.active ++ [(s.nextId, now)] ∧
     (consume now s).nextId = s.nextId + 1) := by
  unfold consume
  split
  · exact Or.inl ⟨rfl, rfl⟩
  · split_ifs
    · exact Or.inl ⟨rfl, rfl⟩
    · exact Or.inr ⟨rfl, rfl⟩

theorem tick_head_expired (now : ℤ) (s : PCState) (id : ℕ) (t0 : ℤ)
    (rest : List (ℕ × ℤ)) (h : s.active = (id, t0) :: rest)
    (hx : s.decayTime < now - t0) :
    (tick now s).2 = some id ∧
    (((tick now s).1.active = rest ∧ (tick now s).1.nextId = s.nextId) ∨
     ((tick now s).1.active = rest ++ [(s.nextId, now)] ∧
      (tick now s).1.nextId = s.nextId + 1)) := by
  unfold tick evict consume
  rw [if_neg (by simp [h])]
  simp only [h, if_pos hx]
  split
  · exact ⟨by trivial, Or.inl ⟨rfl, rfl⟩⟩
  · split_ifs
    · exact ⟨by trivial, Or.inl ⟨rfl, rfl⟩⟩
    · exact ⟨by trivial, Or.inr ⟨rfl, rfl⟩⟩

theorem tick_head_fresh (now : ℤ) (s : PCState) (id : ℕ) (t0 : ℤ)
    (rest : List (ℕ × ℤ)) (h : s.active = (id, t0) :: rest)
    (hx : ¬ s.decayTime < now - t0) :
    (tick now s).2 = none ∧
    (((tick now s).1.active = (id, t0) :: rest ∧
      (tick now s).1.nextId = s.nextId) ∨
     ((tick now s).1.active = ((id, t0) :: rest) ++ [(s.nextId, now)] ∧
      (tick now s).1.nextId = s.nextId + 1)) := by
  unfold tick evict consume
  rw [if_neg (by simp [h])]
  simp only [h, if_neg hx]
  split
  · exact ⟨by trivial, Or.inl ⟨rfl, rfl⟩⟩
  · split_ifs
    · exact ⟨by trivial, Or.inl ⟨rfl, rfl⟩⟩
    · exact ⟨by trivial, Or.inr ⟨rfl, rfl⟩⟩

theorem tick_no_active (now : ℤ) (s : PCState) (h : s.active = []) :
    (tick now s).2 = none ∧
    (((tick now s).1.active = [] ∧ (tick now s).1.nextId = s.nextId) ∨
     ((tick now s).1.active = [(s.nextId, now)] ∧
      (tick now s).1.nextId = s.nextId + 1)) := by
  unfold tick evict consume
  by_cases hq : s.queue = []
  · rw [if_pos (by simp [h, hq])]
    exact ⟨by trivial, Or.inl ⟨by simp [h], by simp⟩⟩
  · rw [if_neg (by simp [h, hq])]
    simp only [h]
    split
    · exact ⟨by trivial, Or.inl ⟨by simp [h], by simp⟩⟩
    · split_ifs
      · exact ⟨by trivial, Or.inl ⟨by simp [h], by simp⟩⟩
      · exact ⟨by trivial, Or.inr ⟨by simp [h], by simp⟩⟩

theorem tick_disposed_spec (now : ℤ) (s : PCState) (id : ℕ)
    (hd : (tick now s).2 = some id) :
    ∃ t0 rest, s.active = (id, t0) :: rest ∧ s.decayTime < now - t0 := by
  cases ha : s.active with
  | nil =>
      rw [(tick_no_active now s ha).1] at hd
      exact absurd hd (by simp)
  | cons head rest =>
      obtain ⟨i0, t0⟩ := head
      by_cases hx : s.decayTime < now - t0
      · have h1 := (tick_head_expired now s i0 t0 rest ha hx).1
        rw [h1] at hd
        injection hd with hid
        subst hid
        exact ⟨t0, rest, rfl, hx⟩
      · rw [(tick_head_fresh now s i0 t0 rest ha hx).1] at hd
        exact absurd hd (by simp)

theorem tick_gone_preserved (now : ℤ) (s : PCState) (id : ℕ)
    (h1 : id ∉ s.active.map Prod.fst) (h2 : id < s.nextId) :
    id ∉ (tick now s).1.active.map Prod.fst ∧
    id < (tick now s).1.nextId ∧ (tick now s).2 ≠ some id := by
  have hnot : (tick now s).2 ≠ some id := by
    intro hd
    obtain ⟨t0, rest, ha, _⟩ := tick_disposed_spec now s id hd
    exact h1 (by rw [ha]; simp)
  refine ⟨?_, ?_, hnot⟩ <;>
  · cases ha : s.active with
    | nil =>
        rcases (tick_no_active now s ha).2 with ⟨hact, hnext⟩ | ⟨hact, hnext⟩ <;>
          simp [hact, hnext] <;> omega
    | cons head rest =>
        obtain ⟨i0, t0⟩ := head
        rw [ha] at h1
        simp only [List.map_cons, List.mem_cons] at h1
        push_neg at h1
        by_cases hx : s.decayTime < now - t0
        · rcases (tick_head_expired now s i0 t0 rest ha hx).2 with
            ⟨hact, hnext⟩ | ⟨hact, hnext⟩ <;>
            simp [hact, hnext, h1.2] <;> omega
        · rcases (tick_head_fresh now s i0 t0 rest ha hx).2 with
            ⟨hact, hnext⟩ | ⟨hact, hnext⟩ <;>
            simp [hact, hnext, h1.1, h1.2] <;> omega

theorem tick_wf (now : ℤ) (s : PCState) (h : wfPC s) :
    wfPC (tick now s).1 := by
  obtain ⟨hnd, hbd⟩ := h
  cases ha : s.active with
  | nil =>
      rcases (tick_no_active now s ha).2 with ⟨hact, hnext⟩ | ⟨hact, hnext⟩ <;>
        refine ⟨by simp [hact], ?_⟩ <;> simp [hact, hnext]
  | cons head rest =>
      obtain ⟨i0, t0⟩ := head
      rw [ha] at hnd hbd
      simp only [List.map_cons, List.nodup_cons] at hnd
      have hbd0 : i0 < s.nextId := hbd i0 (by simp)
      have hbdr : ∀ x ∈ rest.map Prod.fst, x < s.nextId := by
        intro x hx
        exact hbd x (by simp [hx])
      have hfresh : s.nextId ∉ rest.map Prod.fst := by
        intro hmem
        exact absurd (hbdr _ hmem) (by omega)
      have hfresh2 : s.nextId ∉ ((i0, t0) :: rest).map Prod.fst := by
        intro hmem
        rcases List.mem_cons.mp hmem with h | h
        · simp at h; omega
        · exact hfresh h
      by_cases hx : s.decayTime < now - t0
      · rcases (tick_head_expired now s i0 t0 rest ha hx).2 with
          ⟨hact, hnext⟩ | ⟨hact, hnext⟩
        · exact ⟨by rw [hact]; exact hnd.2, by
            intro x hxm; rw [hact] at hxm; rw [hnext]; exact hbdr x hxm⟩
        · refine ⟨?_, ?_⟩
          · rw [hact]
            simp only [List.map_append, List.map_cons, List.map_nil]
            rw [List.nodup_append]
            exact ⟨hnd.2, by simp, by simpa using fun hmem => hfresh hmem⟩
          · intro x hxm
            rw [hact] at hxm
            rw [hnext]
            simp only [List.map_append, List.map_cons, List.map_nil,
              List.mem_append, List.mem_cons] at hxm
            rcases hxm with hxm | hxm
            · have := hbdr x hxm; omega
            · simp at hxm; omega
      · rcases (tick_head_fresh now s i0 t0 rest ha hx).2 with
          ⟨hact, hnext⟩ | ⟨hact, hnext⟩
        · refine ⟨by rw [hact]; simpa using hnd, ?_⟩
          intro x hxm
          rw [hact] at hxm
          rw [hnext]
          simp only [List.map_cons, List.mem_cons] at hxm
          rcases hxm with hxm | hxm
          · subst hxm; exact hbd0
          · exact hbdr x hxm
        · refine ⟨?_, ?_⟩
          · rw [hact]
            simp only [List.cons_append, List.map_cons, List.map_append,
              List.map_nil, List.nodup_cons]
            constructor
            · intro hmem
              simp only [List.mem_append, List.mem_cons, List.mem_singleton] at hmem
              rcases hmem with hmem | hmem
              · exact hnd.1 hmem
              · simp at hmem; omega
            · rw [List.nodup_append]
              exact ⟨hnd.2, by simp, by simpa using fun hmem => hfresh hmem⟩
          · intro x hxm
            rw [hact] at hxm
            rw [hnext]
            simp only [List.cons_append, List.map_cons, List.map_append,
              List.map_nil, List.mem_cons, List.mem_append,
              List.mem_singleton] at hxm
            rcases hxm with hxm | hxm | hxm
            · subst hxm; omega
            · have := hbdr x hxm; omega
            · simp at hxm; omega

theorem ticks_gone (ts : List ℤ) (s : PCState) (id : ℕ)
    (h1 : id ∉ s.active.map Prod.fst) (h2 : id < s.nextId) :
    id ∉ (ticks ts s).2 := by
  induction ts generalizing s with
  | nil => simp [ticks]
  | cons t ts ih =>
      simp only [ticks, List.mem_append]
      push_neg
      obtain ⟨hg1, hg2, hg3⟩ := tick_gone_preserved t s id h1 h2
      refine ⟨?_, ih (tick t s).1 hg1 hg2⟩
      cases hd : (tick t s).2 with
      | none => simp
      | some j =>
          simp only [Option.toList_some, List.mem_singleton]
          intro hj
          exact hg3 (by rw [hd, hj])

theorem ticks_disposed_nodup (ts : List ℤ) (s : PCState) (h : wfPC s) :
    ((ticks ts s).2).Nodup := by
  induction ts generalizing s with
  | nil => simp [ticks]
  | cons t ts ih =>
      simp only [ticks]
      cases hd : (tick t s).2 with
      | none => simpa using ih (tick t s).1 (tick_wf t s h)
      | some id =>
          simp only [Option.toList_some, List.singleton_append,
            List.nodup_cons]
          refine ⟨?_, ih (tick t s).1 (tick_wf t s h)⟩
          obtain ⟨t0, rest, ha, hx⟩ := tick_disposed_spec t s id hd
          obtain ⟨hnd, hbd⟩ := h
          rw [ha] at hnd hbd
          simp only [List.map_cons, List.nodup_cons] at hnd
          have hid : id < s.nextId := hbd id (by simp)
          rcases (tick_head_expired t s id t0 rest ha hx).2 with
            ⟨hact, hnext⟩ | ⟨hact, hnext⟩
          · exact ticks_gone ts (tick t s).1 id
              (by rw [hact]; exact hnd.1) (by rw [hnext]; exact hid)
          · refine ticks_gone ts (tick t s).1 id ?_ (by rw [hnext]; omega)
            rw [hact]
            simp only [List.map_append, List.map_cons, List.map_nil,
              List.mem_append, List.mem_singleton]
            push_neg
            exact ⟨hnd.1, by omega⟩

end PC

/-- C4. Instance eviction, policy A: a `processQueue` tick inspects only
the single oldest active instance. For every well-formed pipeline state:
the oldest instance is removed from the front and reported disposed at a
tick exactly when its age strictly exceeds `decayTime`; while its window
has not elapsed it stays at the front and nothing is disposed; an
instance that is not the oldest survives the tick and is never the one
disposed, even if its own window has elapsed; and over any sequence of
ticks no instance id is ever disposed twice. -/
theorem C4_oldest_only_eviction (now : ℤ) (s : PC.PCState)
    (hwf : PC.wfPC s) :
    (∀ id t0 rest, s.active = (id, t0) :: rest →
        (s.decayTime < now - t0 →
          (PC.tick now s).2 = some id ∧
          id ∉ (PC.tick now s).1.active.map Prod.fst) ∧
        (¬ s.decayTime < now - t0 →
          (PC.tick now s).2 = none ∧
          (PC.tick now s).1.active.head? = some (id, t0))) ∧
    (∀ e ∈ s.active.tail, e ∈ (PC.tick now s).1.active ∧
        (PC.tick now s).2 ≠ some e.1) ∧
    (∀ ts : List ℤ, ((PC.ticks ts s).2).Nodup) := by
  obtain ⟨hnd, hbd⟩ := hwf
  refine ⟨?_, ?_, fun ts => PC.ticks_disposed_nodup ts s ⟨hnd, hbd⟩⟩
  · intro id t0 rest ha
    constructor
    · intro hx
      obtain ⟨hd, hsh⟩ := PC.tick_head_expired now s id t0 rest ha hx
      refine ⟨hd, ?_⟩
      rw [ha] at hnd hbd
      simp only [List.map_cons, List.nodup_cons] at hnd
      have hid : id < s.nextId := hbd id (by simp)
      rcases hsh with ⟨hact, _⟩ | ⟨hact, _⟩
      · rw [hact]; exact hnd.1
      · rw [hact]
        simp only [List.map_append, List.map_cons, List.map_nil,
          List.mem_append, List.mem_singleton]
        push_neg
        exact ⟨hnd.1, by omega⟩
    · intro hx
      obtain ⟨hd, hsh⟩ := PC.tick_head_fresh now s id t0 rest ha hx
      refine ⟨hd, ?_⟩
      rcases hsh with ⟨hact, _⟩ | ⟨hact, _⟩ <;> rw [hact] <;> rfl
  · intro e he
    cases ha : s.active with
    | nil => rw [ha] at he; simp at he
    | cons head rest =>
        obtain ⟨i0, t0⟩ := head
        rw [ha] at he
        simp only [List.tail_cons] at he
        rw [ha] at hnd hbd
        simp only [List.map_cons, List.nodup_cons] at hnd
        by_cases hx : s.decayTime < now - t0
        · obtain ⟨hd, hsh⟩ := PC.tick_head_expired now s i0 t0 rest ha hx
          constructor
          · rcases hsh with ⟨hact, _⟩ | ⟨hact, _⟩ <;> rw [hact] <;>
              simp [he]
          · rw [hd]
            intro hcontra
            injection hcontra with hei
            apply hnd.1
            rw [hei]
            exact List.mem_map_of_mem Prod.fst he
        · obtain ⟨hd, hsh⟩ := PC.tick_head_fresh now s i0 t0 rest ha hx
          constructor
          · rcases hsh with ⟨hact, _⟩ | ⟨hact, _⟩ <;> rw [hact] <;>
              simp [he]
          · rw [hd]; simp

/-- Witness for C4 at a concrete input: the pipeline with one instance
created at time 0 disposes exactly it at a tick at time 6000
(decay window 5000). -/
theorem C4_oldest_only_eviction_witness :
    PC.wfPC PC.busyPC ∧
    PC.busyPC.active = [((0 : ℕ), (0 : ℤ))] ∧
    PC.busyPC.decayTime < 6000 - 0 ∧
    (PC.tick 6000 PC.busyPC).2 = some 0 ∧
    (0 : ℕ) ∉ (PC.tick 6000 PC.busyPC).1.active.map Prod.fst := by
  have hwf : PC.wfPC PC.busyPC := by
    constructor
    · simp [PC.busyPC]
    · intro id hid
      simp [PC.busyPC] at hid
      simp [PC.busyPC, hid]
  have h := ((C4_oldest_only_eviction 6000 PC.busyPC hwf).1 0 0 []
    (by simp [PC.busyPC])).1 (by simp [PC.busyPC])
  exact ⟨hwf, by simp [PC.busyPC], by simp [PC.busyPC], h.1, h.2⟩

/-- C5. Admission cap: each produced message carries exactly `batchSize`
points, so the cumulative count of points ever enqueued is
`batchSize * index`. Once it reaches the session budget
`maxTotal = batchSize * pcMax` (= 40 000 000 points), `processMessage`
enqueues nothing and stops rescheduling itself; below the budget every
produced batch is appended to the queue and production is rescheduled. -/
theorem C5_admission_cap (s : PC.PCState) :
    (PC.maxTotal ≤ PC.totalEnqueued s →
      (PC.processMessage s).queue = s.queue ∧
      (PC.processMessage s).index = s.index ∧
      (PC.processMessage s).timerOn = false) ∧
    (PC.totalEnqueued s < PC.maxTotal →
      (PC.processMessage s).queue = s.queue ++ [PC.batchSize] ∧
      (PC.processMessage s).index = s.index + 1 ∧
      (PC.processMessage s).timerOn = true ∧
      PC.totalEnqueued (PC.processMessage s)
        = PC.totalEnqueued s + PC.batchSize) := by
  constructor
  · intro h
    have hidx : PC.pcMax ≤ s.index := by
      simp only [PC.maxTotal, PC.totalEnqueued, PC.batchSize, PC.pcMax] at h ⊢
      omega
    rw [PC.processMessage, if_pos hidx]
    exact ⟨rfl, rfl, rfl⟩
  · intro h
    have hidx : ¬ PC.pcMax ≤ s.index := by
      simp only [PC.maxTotal, PC.totalEnqueued, PC.batchSize, PC.pcMax] at h ⊢
      omega
    rw [PC.processMessage, if_neg hidx]
    refine ⟨rfl, rfl, rfl, ?_⟩
    simp only [PC.totalEnqueued, PC.batchSize]
    ring

/-- Witness for C5 at a concrete input: the fresh producer (0 points
enqueued so far) produces and appends one batch of 2000 points. -/
theorem C5_admission_cap_witness :
    PC.totalEnqueued PC.idlePC < PC.maxTotal ∧
    (PC.processMessage PC.idlePC).queue = PC.idlePC.queue ++ [PC.batchSize] ∧
    (PC.processMessage PC.idlePC).index = PC.idlePC.index + 1 := by
  have h := (C5_admission_cap PC.idlePC).2 (by decide)
  exact ⟨by decide, h.1, h.2.1⟩

/-- C6 counterexample. After an idle tick cancels the frame-loop
scheduling, a subsequent `processMessage` enqueues a batch but does not
restart the scheduling: the queue becomes non-empty while `scheduled`
stays false, refuting the claim that every later enqueue restarts the
tick scheduling. -/
theorem C6_enqueue_does_not_restart_cex :
    (PC.tick 0 PC.idlePC).1.scheduled = false ∧
    (PC.processMessage (PC.tick 0 PC.idlePC).1).queue = [PC.batchSize] ∧
    (PC.processMessage (PC.tick 0 PC.idlePC).1).scheduled = false := by
  refine ⟨?_, ?_, ?_⟩ <;> decide

/-- C6 (amended). Idle stop holds: whenever a tick observes that both the
active list and the queue are empty, the periodic scheduling is
cancelled and nothing is disposed. However no enqueue path restarts the
scheduling: `processMessage` never touches the scheduled flag (the loop
is started once, by `subscribe`), so a batch enqueued after the
cancellation is left in the queue with no consumer. -/
theorem C6_idle_stop_without_restart (now : ℤ) (s : PC.PCState)
    (ha : s.active = []) (hq : s.queue = []) :
    (PC.tick now s).1.scheduled = false ∧ (PC.tick now s).2 = none ∧
    ∀ s' : PC.PCState, (PC.processMessage s').scheduled = s'.scheduled := by
  refine ⟨?_, ?_, ?_⟩
  · unfold PC.tick
    rw [if_pos (by simp [ha, hq])]
  · unfold PC.tick
    rw [if_pos (by simp [ha, hq])]
  · intro s'
    unfold PC.processMessage
    split_ifs <;> rfl

/-- Witness for C6 at a concrete input: the idle pipeline state. -/
theorem C6_idle_stop_without_restart_witness :
    PC.idlePC.active = [] ∧ PC.idlePC.queue = [] ∧
    (PC.tick 0 PC.idlePC).1.scheduled = false := by
  exact ⟨rfl, rfl, (C6_idle_stop_without_restart 0 PC.idlePC rfl rfl).1⟩

/-- C7 counterexample. `dispose()` tears down only the viewer; the
producer `setTimeout` chain checks no stop flag, so a producer callback
arriving after `dispose()` returned still executes its whole body: it
enqueues a fresh batch and reschedules itself. -/
theorem C7_producer_fires_after_dispose_cex :
    (APP.unmount APP.liveApp).viewer.destroy = true ∧
    (APP.producerFire (APP.unmount APP.liveApp)).pc.queue = [PC.batchSize] ∧
    (APP.producerFire (APP.unmount APP.liveApp)).pc.timerOn = true := by
  refine ⟨?_, ?_, ?_⟩ <;> decide

/-- C7 (amended). Render-loop scheduler: `start()` while a frame token is
outstanding is a no-op; `stop()` nulls the token and cancels the queued
callback, so the frame delivery after `stop()` runs nothing; `run()` on a
destroyed viewer does nothing and does not reschedule, so even a callback
in flight at `dispose()` time executes no body; and after `dispose()` no
render-loop callback runs. But `dispose()` leaves the producer timer
state untouched: the producer chain is not cancelled and keeps firing
until its own message cap. -/
theorem C7_scheduler_cancellation (s : VW.VState) :
    (∀ t : ℕ, s.requestId = some t → VW.start s = s) ∧
    (s.pending = s.requestId →
      (VW.stop s).requestId = none ∧ (VW.stop s).pending = none ∧
      VW.frame (VW.stop s) = VW.stop s) ∧
    (s.destroy = true → VW.run s = s) ∧
    (s.pending = s.requestId →
      (VW.dispose s).destroy = true ∧
      VW.frame (VW.dispose s) = VW.dispose s) ∧
    (∀ a : APP.AppState, (APP.unmount a).pc = a.pc) := by
  refine ⟨?_, ?_, ?_, ?_, fun a => rfl⟩
  · intro t ht
    simp [VW.start, ht]
  · intro hp
    cases hreq : s.requestId with
    | none =>
        rw [hreq] at hp
        simp [VW.stop, hreq, VW.frame, hp]
    | some t =>
        rw [hreq] at hp
        simp [VW.stop, hreq, hp, VW.frame]
  · intro hd
    simp [VW.run, hd]
  · intro hp
    refine ⟨?_, ?_⟩
    · cases hreq : s.requestId <;> simp [VW.dispose, VW.stop, hreq]
    · cases hreq : s.requestId with
      | none =>
          rw [hreq] at hp
          simp [VW.dispose, VW.stop, hreq, VW.frame, hp]
      | some t =>
          rw [hreq] at hp
          simp [VW.dispose, VW.stop, hreq, hp, VW.frame]

/-- Witness for C7 at a concrete input: the live viewer. -/
theorem C7_scheduler_cancellation_witness :
    VW.liveV.requestId = some 0 ∧
    VW.liveV.pending = VW.liveV.requestId ∧
    VW.start VW.liveV = VW.liveV ∧
    VW.frame (VW.stop VW.liveV) = VW.stop VW.liveV := by
  have h := C7_scheduler_cancellation VW.liveV
  exact ⟨rfl, rfl, h.1 0 rfl, (h.2.1 rfl).2.2⟩

/-- C8 counterexample. `start()` on a disposed viewer is not a no-op:
`stop()` nulled `requestId` during `dispose()`, so the guard passes,
`destroy` is cleared and the frame loop is rescheduled — the disposed
instance is re-activated. -/
theorem C8_start_reactivates_disposed_cex :
    (VW.dispose VW.liveV).requestId = none ∧
    (VW.dispose VW.liveV).destroy = true ∧
    (VW.start (VW.dispose VW.liveV)).destroy = false ∧
    (VW.start (VW.dispose VW.liveV)).requestId = some 1 ∧
    (VW.start (VW.dispose VW.liveV)).pending = some 1 := by
  refine ⟨?_, ?_, ?_, ?_, ?_⟩ <;> decide

/-- C8 (amended). Calling `dispose` on a `Viewer` a second time is a safe
no-op because the first call nulls every owned reference; `add`,
`setCameraPosition` and `stop` on a disposed viewer are silent no-ops and
the getters return null. `start()` is the exception: it re-activates the
disposed viewer (see counterexample). For `Points`, `dispose()` nulls
nothing: the scene reference survives, and a second call repeats the
(idempotent) collaborator dispose calls rather than being guarded. -/
theorem C8_disposed_components (s : VW.VState) (p : PT.PtState) :
    VW.dispose (VW.dispose s) = VW.dispose s ∧
    VW.add (VW.dispose s) = VW.dispose s ∧
    (∀ x y z : ℚ, VW.setCameraPosition (VW.dispose s) x y z = VW.dispose s) ∧
    VW.stop (VW.dispose s) = VW.dispose s ∧
    VW.getScene (VW.dispose s) = false ∧
    VW.getCamera (VW.dispose s) = false ∧
    VW.getRenderer (VW.dispose s) = false ∧
    (PT.dispose p).hasScene = p.hasScene ∧
    (PT.dispose (PT.dispose p)).inScene = (PT.dispose p).inScene ∧
    (PT.dispose (PT.dispose p)).geomDisposeCalls
      = (PT.dispose p).geomDisposeCalls + 1 := by
  refine ⟨?_, ?_, ?_, ?_, ?_, ?_, ?_, rfl, ?_, rfl⟩
  · cases hreq : s.requestId <;> simp [VW.dispose, VW.stop, hreq]
  · cases hreq : s.requestId <;> simp [VW.dispose, VW.stop, hreq, VW.add]
  · intro x y z
    cases hreq : s.requestId <;>
      simp [VW.dispose, VW.stop, hreq, VW.setCameraPosition]
  · cases hreq : s.requestId <;> simp [VW.dispose, VW.stop, hreq]
  · cases hreq : s.requestId <;> simp [VW.dispose, VW.stop, hreq, VW.getScene]
  · cases hreq : s.requestId <;> simp [VW.dispose, VW.stop, hreq, VW.getCamera]
  · cases hreq : s.requestId <;> simp [VW.dispose, VW.stop, hreq, VW.getRenderer]
  · cases hs : p.hasScene <;> simp [PT.dispose, hs]

/-- C9 counterexample. The `Viewer` class applies a resize update
immediately on every observed event: two events 10 ms apart (well inside
one 200 ms window) produce two applied projection updates, and the
intermediate dimensions 100 x 50 are applied — not exactly one update of
the final dimensions. -/
theorem C9_viewer_resize_not_coalesced_cex :
    (VW.observeRun VW.liveV [(0, 100, 50), (10, 200, 80)]).projUpdates = 2 ∧
    (VW.resize VW.liveV 100 50).projUpdates = 1 ∧
    (VW.resize VW.liveV 100 50).width = 100 ∧
    ((10 : ℤ) - 0 < 200) := by
  refine ⟨?_, ?_, ?_, ?_⟩ <;> decide

theorem VW_debounce_burst : ∀ (evs : List VW.REv) (e : VW.REv),
    evs.getLast? = some e →
    evs.Chain' (fun a b => b.t - a.t < 200) →
    VW.debounceFires evs = [⟨e.t + 200, e.w, e.h⟩]
  | [], e, hlast, _ => by simp at hlast
  | [e1], e, hlast, _ => by
      simp only [List.getLast?] at hlast
      injection hlast with h
      subst h
      rfl
  | e1 :: e2 :: rest, e, hlast, hburst => by
      have hgap : e2.t - e1.t < 200 := (List.chain'_cons.mp hburst).1
      have htail : (e2 :: rest).Chain' (fun a b => b.t - a.t < 200) :=
        (List.chain'_cons.mp hburst).2
      have hlast2 : (e2 :: rest).getLast? = some e := by
        rwa [List.getLast?_cons_cons] at hlast
      show VW.debounceFires (e1 :: e2 :: rest) = _
      rw [VW.debounceFires]
      rw [if_pos hgap]
      exact VW_debounce_burst (e2 :: rest) e hlast2 htail

theorem VW_observeRun_count (l : List (ℤ × ℤ × ℤ)) (s : VW.VState)
    (hc : s.camera = true) (hr : s.renderer = true) :
    (VW.observeRun s l).projUpdates = s.projUpdates + l.length := by
  induction l generalizing s with
  | nil => simp [VW.observeRun]
  | cons ev tl ih =>
      simp only [VW.observeRun, List.foldl_cons]
      have hres : VW.resize s ev.2.1 ev.2.2 =
          { s with width := ev.2.1, height := ev.2.2,
                   projUpdates := s.projUpdates + 1 } := by
        simp [VW.resize, hc, hr]
      have := ih (VW.resize s ev.2.1 ev.2.2)
        (by rw [hres]; exact hc) (by rw [hres]; exact hr)
      simp only [VW.observeRun] at this
      rw [this, hres]
      simp only [List.length_cons]
      omega

/-- C9 (amended). Resize coalescing holds for the `useThreejs` hook only:
its observer debounces with a 200 ms trailing timeout, so any nonempty
burst of events whose consecutive gaps are all below 200 ms yields
exactly one applied update, 200 ms after the last event and carrying the
last observed dimensions. The `Viewer` class observer has no debounce: it
applies one projection/size update per event, so a burst of N events
yields N applied updates, intermediate dimensions included. -/
theorem C9_resize_debounce (evs : List VW.REv) (e : VW.REv)
    (hlast : evs.getLast? = some e)
    (hburst : evs.Chain' (fun a b => b.t - a.t < 200)) :
    VW.debounceFires evs = [⟨e.t + 200, e.w, e.h⟩] ∧
    (∀ s : VW.VState, s.camera = true → s.renderer = true →
      ∀ l : List (ℤ × ℤ × ℤ),
        (VW.observeRun s l).projUpdates = s.projUpdates + l.length) :=
  ⟨VW_debounce_burst evs e hlast hburst,
   fun s hc hr l => VW_observeRun_count l s hc hr⟩

/-- Witness for C9 at a concrete input: a burst of two events 10 ms apart
debounces to the single update (210, 200, 80). -/
theorem C9_resize_debounce_witness :
    ([(⟨0, 100, 50⟩ : VW.REv), ⟨10, 200, 80⟩].getLast?
      = some (⟨10, 200, 80⟩ : VW.REv)) ∧
    VW.debounceFires [⟨0, 100, 50⟩, ⟨10, 200, 80⟩]
      = [⟨210, 200, 80⟩] := by
  constructor
  · rfl
  · exact (C9_resize_debounce [⟨0, 100, 50⟩, ⟨10, 200, 80⟩] ⟨10, 200, 80⟩
      rfl (by simp [List.chain'_cons])).1
